import Mathlib

/-!
Verification of the configuration and credential state manager of the
phenoml-skills repository: the `.env` store writer `save_to_env` of
`scripts/create_workflow.py`, the deployment-mode classifier
`get_instance_type` and validation gate `check_env_vars` of
`scripts/check_env.py`, the boolean conversion `str_to_bool` of
`scripts/create_workflow.py`, and the input-data gate of
`scripts/test_workflow.py`.

Strings are modelled through their character lists; a file is modelled as
`Option String` (`none` means the file does not exist).  All definitions are
translated from the Python sources, except the environment-file loader,
which is not part of the repository and is modelled from the spec.
-/

/-- Boolean test that `p` occurs at the very start of `s`
(models Python `str.startswith`). -/
def prefixMatch : List Char → List Char → Bool
  | [], _ => true
  | _ :: _, [] => false
  | p :: ps, c :: cs => p == c && prefixMatch ps cs

/-- Boolean substring test (models the Python `in` operator on strings). -/
def hasSubstr (pat : List Char) : List Char → Bool
  | [] => prefixMatch pat []
  | c :: cs => prefixMatch pat (c :: cs) || hasSubstr pat cs

/-- Split a character stream into lines, each line keeping its terminating
newline; a final segment with no newline is kept as a bare line (models
Python `file.readlines()`). -/
def splitLines : List Char → List (List Char)
  | [] => []
  | c :: cs =>
    if c = '\n' then ['\n'] :: splitLines cs
    else
      match splitLines cs with
      | [] => [[c]]
      | l :: ls => (c :: l) :: ls

/-- The single line `key=value\n` written by `save_to_env`
(`create_workflow.py`, lines 39, 48 and 55). -/
def envLine (key value : List Char) : List Char := key ++ '=' :: (value ++ ['\n'])

/-- Replace the first line starting with `key=` by `key=value\n`; `none` when
no line matches (`create_workflow.py`, lines 45-50: the `found` flag). -/
def replaceFirstLine (key value : List Char) : List (List Char) → Option (List (List Char))
  | [] => none
  | l :: ls =>
    if prefixMatch (key ++ ['=']) l then some (envLine key value :: ls)
    else (replaceFirstLine key value ls).map (l :: ·)

/-- When the file is nonempty and its last line lacks a terminating newline,
append a bare newline element before the new line is appended
(`create_workflow.py`, lines 53-54). -/
def fixTail (ls : List (List Char)) : List (List Char) :=
  match ls.getLast? with
  | none => ls
  | some l => if l.getLast? = some '\n' then ls else ls ++ [['\n']]

/-- The in-memory transformation of `save_to_env` between `readlines` and
`writelines` (`create_workflow.py`, lines 45-55). -/
def saveLines (key value : List Char) (ls : List (List Char)) : List (List Char) :=
  match replaceFirstLine key value ls with
  | some ls' => ls'
  | none => fixTail ls ++ [envLine key value]

/-- The store writer `save_to_env` of `create_workflow.py` (lines 33-58):
`none` models a missing `.env` file, in which case the file is created with
the single line `key=value\n`; otherwise the existing content is read,
rewritten in memory by `saveLines`, and written back. -/
def save_to_env (key value : String) : Option String → String
  | none => String.mk (envLine key.data value.data)
  | some c => String.mk (List.flatten (saveLines key.data value.data (splitLines c.data)))

/-- Drop a single terminating newline from a line, if present. -/
def stripNewline (l : List Char) : List Char :=
  if l.getLast? = some '\n' then l.dropLast else l

/-- Split a character list at its first `=`: `splitEq (k ++ '=' :: v)` is
`some (k, v)` when `k` has no `=`, and `none` when there is no `=` at all. -/
def splitEq : List Char → Option (List Char × List Char)
  | [] => none
  | c :: cs =>
    if c = '=' then some ([], cs)
    else (splitEq cs).map (fun kv => (c :: kv.1, kv.2))

/-- Modelled from the spec: the store is "a flat text file of `KEY=VALUE`
lines, one assignment per line, no quoting/escaping rules beyond literal
text after the first `=`" (spec section 6), consumed by the external
environment-file loader `load_dotenv`, which is not part of this
repository.  A line parses to its key and the literal text after the first
`=`, with the terminating newline removed. -/
def parseLine (l : List Char) : Option (List Char × List Char) :=
  splitEq (stripNewline l)

/-- Modelled from the spec: the value an environment-file loader resolves
for key `k` from a list of lines; per the spec's store invariant "the last
write wins" (spec section 3), a later line for the same key overrides an
earlier one.  Lines without `=` are ignored. -/
def lookupLines (k : List Char) : List (List Char) → Option (List Char)
  | [] => none
  | l :: ls =>
    match lookupLines k ls with
    | some v => some v
    | none =>
      match parseLine l with
      | some kv => if kv.1 = k then some kv.2 else none
      | none => none

/-- Modelled from the spec: the value key `k` resolves to after a fresh
load (new process) of a store file with content `c`. -/
def dotenvValue (c : String) (k : String) : Option String :=
  (lookupLines k.data (splitLines c.data)).map String.mk

/-- Number of lines of store content `c` that define key `k`, i.e. that
start with `k=` (the lines `save_to_env` treats as defining `k`). -/
def linesDefining (k : String) (c : String) : Nat :=
  (splitLines c.data).countP (fun l => prefixMatch (k.data ++ ['=']) l)

/-- Lowercase a character list (models Python `str.lower()` on the ASCII
range, which is all the classifier's marker needs). -/
def lowerList (s : List Char) : List Char := s.map Char.toLower

/-- The deployment-mode classifier `get_instance_type` of `check_env.py`
(lines 21-31); the argument models `os.getenv("PHENOML_BASE_URL", "")`,
with `none` for an unset variable. -/
def get_instance_type (base_url : Option String) : String :=
  let u := base_url.getD ""
  if u = "" then "unknown"
  else if hasSubstr "experiment".data (lowerList u.data) then "shared_experiment"
  else "dedicated"

/-- Python truthiness of `os.getenv k`: `bool(None)` and `bool("")` are
false, any other string is truthy. -/
def envPresent (env : String → Option String) (k : String) : Bool :=
  match env k with
  | some s => !s.isEmpty
  | none => false

/-- The structured report produced by `check_env_vars` (`check_env.py`,
lines 64-69): three categories of presence booleans plus the instance-type
label.  No field can hold the value of any environment variable other than
the derived classification label. -/
structure EnvReport where
  core_PHENOML_USERNAME : Bool
  core_PHENOML_PASSWORD : Bool
  core_PHENOML_BASE_URL : Bool
  fhir_FHIR_PROVIDER_BASE_URL : Bool
  fhir_FHIR_PROVIDER_CLIENT_ID : Bool
  fhir_FHIR_PROVIDER_CLIENT_SECRET : Bool
  gen_FHIR_PROVIDER_ID : Bool
  gen_WORKFLOW_ID : Bool
  instance_type : String
deriving DecidableEq

/-- The validation gate `check_env_vars` of `check_env.py` (lines 33-69),
as a function of the environment snapshot after `load_dotenv`.  In shared
mode `FHIR_PROVIDER_ID` is reported present regardless of the variable
(line 60: `bool(os.getenv("FHIR_PROVIDER_ID")) or is_shared`). -/
def check_env_vars (env : String → Option String) : EnvReport :=
  { core_PHENOML_USERNAME := envPresent env "PHENOML_USERNAME"
    core_PHENOML_PASSWORD := envPresent env "PHENOML_PASSWORD"
    core_PHENOML_BASE_URL := envPresent env "PHENOML_BASE_URL"
    fhir_FHIR_PROVIDER_BASE_URL := envPresent env "FHIR_PROVIDER_BASE_URL"
    fhir_FHIR_PROVIDER_CLIENT_ID := envPresent env "FHIR_PROVIDER_CLIENT_ID"
    fhir_FHIR_PROVIDER_CLIENT_SECRET := envPresent env "FHIR_PROVIDER_CLIENT_SECRET"
    gen_FHIR_PROVIDER_ID :=
      envPresent env "FHIR_PROVIDER_ID"
        || (get_instance_type (env "PHENOML_BASE_URL") == "shared_experiment")
    gen_WORKFLOW_ID := envPresent env "WORKFLOW_ID"
    instance_type := get_instance_type (env "PHENOML_BASE_URL") }

/-- The eight environment variables `check_env_vars` reads (besides reading
`PHENOML_BASE_URL` again through the classifier). -/
def checkedKeys : List String :=
  ["PHENOML_USERNAME", "PHENOML_PASSWORD", "PHENOML_BASE_URL",
   "FHIR_PROVIDER_BASE_URL", "FHIR_PROVIDER_CLIENT_ID",
   "FHIR_PROVIDER_CLIENT_SECRET", "FHIR_PROVIDER_ID", "WORKFLOW_ID"]

/-- The exit code of `check_env.py`'s `main` (lines 199-201): `sys.exit(1)`
exactly when not all core credentials are present, 0 otherwise. -/
def main_exit_code (env : String → Option String) : Nat :=
  let r := check_env_vars env
  if r.core_PHENOML_USERNAME && r.core_PHENOML_PASSWORD && r.core_PHENOML_BASE_URL
  then 0 else 1

/-- The header `print_status` prints for the FHIR-credential section
(`check_env.py`, lines 108-117), as a function of the instance type. -/
def fhir_section_header (instance_type : String) : String :=
  if instance_type == "shared_experiment" then
    "FHIR Provider Credentials: (not required for shared experiment)"
  else if instance_type == "unknown" then
    "FHIR Provider Credentials: (status depends on instance type)"
  else
    "FHIR Provider Credentials: (required for dedicated instance)"

/-- Lowercased copy of a string (models Python `str.lower()` on ASCII). -/
def lowerStr (s : String) : String := String.mk (lowerList s.data)

/-- The boolean conversion `str_to_bool` of `create_workflow.py`
(lines 60-62): `s.lower() in ('true', '1', 'yes', 'y')`. -/
def str_to_bool (s : String) : Bool :=
  ["true", "1", "yes", "y"].contains (lowerStr s)

/-- Resolution of the dynamic-generation flag (`create_workflow.py`,
line 82): the CLI value if supplied, otherwise `str_to_bool` of the
environment variable with default `"true"`. -/
def resolve_dynamic_generation (cli : Option Bool) (env : Option String) : Bool :=
  match cli with
  | some b => b
  | none => str_to_bool (env.getD "true")

/-- Resolution of the verbose flag (`create_workflow.py`, line 83): the CLI
value if supplied, otherwise `str_to_bool` of the environment variable with
default `"false"`. -/
def resolve_verbose (cli : Option Bool) (env : Option String) : Bool :=
  match cli with
  | some b => b
  | none => str_to_bool (env.getD "false")

/-- Modelled from the spec: the error category `PersistenceError` of the
spec's taxonomy (section 7, "the store could not be read or written"); the
repository raises the corresponding built-in I/O errors uncaught, so the
category's constructors name the spec's example failures (section 4.3). -/
inductive PersistenceError where
  | permissionDenied
  | isADirectory
  | diskFull
  | otherFailure
deriving DecidableEq

/-- A file-system state for the store file: its content (or absence) plus
injected I/O failures for the next read and the next write. -/
structure FSState where
  file : Option String
  readFailure : Option PersistenceError
  writeFailure : Option PersistenceError
deriving DecidableEq

/-- The store writer `save_to_env` run against a fallible file system: the
existence check, the read of an existing file, and the final write each
either succeed or raise (`save_to_env` itself has no handler, so the first
failure propagates to the caller). -/
def save_to_env_fs (key value : String) (fs : FSState) : Except PersistenceError FSState :=
  match fs.file with
  | none =>
    match fs.writeFailure with
    | some e => .error e
    | none => .ok { fs with file := some (save_to_env key value none) }
  | some c =>
    match fs.readFailure with
    | some e => .error e
    | none =>
      match fs.writeFailure with
      | some e => .error e
      | none => .ok { fs with file := some (save_to_env key value (some c)) }

/-- The tail of `create_workflow.py`'s `main` after the remote workflow was
created (lines 150-159): the pair is the process exit code and whether the
remotely created workflow still exists.  A failure propagating out of
`save_to_env` is caught by the generic handler, which prints and exits 1;
no code path deletes the created workflow. -/
def finish_create (saved : Except PersistenceError FSState) : Nat × Bool :=
  match saved with
  | .ok _ => (0, true)
  | .error _ => (1, true)

/-- A JSON value as produced by `json.load`/`json.loads` (numbers modelled
as integers; the claims only concern `0`). -/
inductive JValue where
  | null
  | bool (b : Bool)
  | num (n : Int)
  | str (s : String)
  | arr (xs : List JValue)
  | obj (fields : List (String × JValue))

/-- Python truthiness of a parsed JSON value: `None`, `False`, `0`, `""`,
`[]` and `{}` are falsy. -/
def jsonFalsy : JValue → Bool
  | .null => true
  | .bool b => !b
  | .num n => n == 0
  | .str s => s.isEmpty
  | .arr xs => xs.isEmpty
  | .obj fields => fields.isEmpty

/-- The input-data source selection of `test_workflow.py` (lines 50-78):
`--input-file` first, then `--input-data`, then `WORKFLOW_TEST_DATA`.  A
`some` argument models a source that was supplied and parsed successfully
(a parse failure exits earlier and is outside these claims). -/
def select_input (file_data cli_data env_data : Option JValue) : Option JValue :=
  match file_data with
  | some j => some j
  | none =>
    match cli_data with
    | some j => some j
    | none => env_data

/-- Outcome of `test_workflow.py`'s `main` up to the remote call: either the
process exits with a code and an error message before any remote call, or
it proceeds to initialize the client and execute the workflow remotely. -/
inductive TestOutcome where
  | exited (code : Nat) (msg : String)
  | executed (workflow_id : String) (input : JValue)

/-- The validation gates of `test_workflow.py`'s `main` (lines 41-83):
`if not workflow_id` exits 1, then `if not input_data` exits 1; only past
both gates is the remote service called. -/
def run_test (workflow_id : Option String) (input_data : Option JValue) : TestOutcome :=
  match workflow_id with
  | none => .exited 1 "Workflow ID is required"
  | some w =>
    if w.isEmpty then .exited 1 "Workflow ID is required"
    else
      match input_data with
      | none => .exited 1 "Input data is required"
      | some j =>
        if jsonFalsy j then .exited 1 "Input data is required"
        else .executed w j

/-- A line of the store that is terminated by its only newline. -/
def TermLine (l : List Char) : Prop := ∃ m, '\n' ∉ m ∧ l = m ++ ['\n']

/-- A nonempty line containing no newline (a final unterminated line). -/
def BareLine (l : List Char) : Prop := l ≠ [] ∧ '\n' ∉ l

/-- Shape of any `splitLines` output: every line but the last is terminated,
and the last is terminated or bare. -/
inductive GoodLines : List (List Char) → Prop
  | nil : GoodLines []
  | bare {l} : BareLine l → GoodLines [l]
  | cons {l ls} : TermLine l → GoodLines ls → GoodLines (l :: ls)

/-- An environment with all three core credentials and a dedicated-instance
base URL, secrets spelled one way (used to compare reports). -/
def secretEnvA : String → Option String := fun k =>
  if k = "PHENOML_USERNAME" then some "alice" else
  if k = "PHENOML_PASSWORD" then some "first-secret" else
  if k = "PHENOML_BASE_URL" then some "https://acme.app.pheno.ml" else none

/-- The same environment shape as `secretEnvA` with different secrets. -/
def secretEnvB : String → Option String := fun k =>
  if k = "PHENOML_USERNAME" then some "bob" else
  if k = "PHENOML_PASSWORD" then some "other-secret" else
  if k = "PHENOML_BASE_URL" then some "https://acme.app.pheno.ml" else none

/-- Core credentials set and a shared-experiment base URL; no FHIR
variables at all. -/
def sharedEnv : String → Option String := fun k =>
  if k = "PHENOML_USERNAME" then some "user" else
  if k = "PHENOML_PASSWORD" then some "pw" else
  if k = "PHENOML_BASE_URL" then some "https://experiment.app.pheno.ml" else none

/-- Core credentials set and a dedicated-instance base URL; all provider
credentials unset. -/
def dedicatedEnv : String → Option String := fun k =>
  if k = "PHENOML_USERNAME" then some "user" else
  if k = "PHENOML_PASSWORD" then some "pw" else
  if k = "PHENOML_BASE_URL" then some "https://acme.app.pheno.ml" else none

/-! Helper lemmas about the character-level string model. -/

theorem stringMk_data (s : String) : String.mk s.data = s := rfl

theorem data_stringMk (l : List Char) : (String.mk l).data = l := rfl

theorem string_eq_iff_data {s t : String} : s = t ↔ s.data = t.data := by
  constructor
  · intro h; rw [h]
  · intro h; cases s; cases t; exact congrArg String.mk h

theorem prefixMatch_iff {p s : List Char} :
    prefixMatch p s = true ↔ ∃ r, s = p ++ r := by
  induction p generalizing s with
  | nil => simp [prefixMatch]
  | cons a ps ih =>
    cases s with
    | nil =>
      simp only [prefixMatch]
      constructor
      · intro h; cases h
      · rintro ⟨r, h⟩; cases h
    | cons c cs =>
      simp only [prefixMatch, Bool.and_eq_true, beq_iff_eq, ih]
      constructor
      · rintro ⟨rfl, r, rfl⟩; exact ⟨r, rfl⟩
      · rintro ⟨r, h⟩
        injection h with h1 h2
        exact ⟨h1.symm, r, h2⟩

theorem prefixMatch_append_self (p r : List Char) :
    prefixMatch p (p ++ r) = true :=
  prefixMatch_iff.mpr ⟨r, rfl⟩

theorem prefixMatch_of_snoc_newline {p l : List Char}
    (hp : '\n' ∉ p) (h : prefixMatch p (l ++ ['\n']) = true) :
    prefixMatch p l = true := by
  induction p generalizing l with
  | nil => simp [prefixMatch]
  | cons a ps ih =>
    have ha : a ≠ '\n' := fun hc => hp (hc ▸ List.mem_cons_self a ps)
    have hp' : '\n' ∉ ps := fun hc => hp (List.mem_cons_of_mem _ hc)
    cases l with
    | nil =>
      simp only [List.nil_append, prefixMatch, Bool.and_eq_true, beq_iff_eq] at h
      exact absurd h.1 ha
    | cons c cs =>
      simp only [List.cons_append, prefixMatch, Bool.and_eq_true] at h ⊢
      exact ⟨h.1, ih hp' h.2⟩

theorem hasSubstr_iff {pat s : List Char} :
    hasSubstr pat s = true ↔ ∃ pre post, s = pre ++ pat ++ post := by
  induction s with
  | nil =>
    simp only [hasSubstr, prefixMatch_iff]
    constructor
    · rintro ⟨r, h⟩
      exact ⟨[], r, by simp [h]⟩
    · rintro ⟨pre, post, h⟩
      have h1 : (pre = [] ∧ pat = []) ∧ post = [] := by
        simpa using List.append_eq_nil.mp h.symm
      exact ⟨[], by simp [h1.1.2]⟩
  | cons c cs ih =>
    simp only [hasSubstr, Bool.or_eq_true, prefixMatch_iff, ih]
    constructor
    · rintro (⟨r, h⟩ | ⟨pre, post, h⟩)
      · exact ⟨[], r, by simpa using h⟩
      · exact ⟨c :: pre, post, by simp [h]⟩
    · rintro ⟨pre, post, h⟩
      cases pre with
      | nil => exact Or.inl ⟨post, by simpa using h⟩
      | cons a pre' =>
        right
        injection h with h1 h2
        exact ⟨pre', post, h2⟩

theorem splitLines_ne_nil {cs : List Char} (h : cs ≠ []) : splitLines cs ≠ [] := by
  cases cs with
  | nil => exact absurd rfl h
  | cons c cs =>
    by_cases hc : c = '\n'
    · simp [splitLines, hc]
    · simp only [splitLines, if_neg hc]
      cases splitLines cs <;> simp

theorem flatten_splitLines (cs : List Char) : (splitLines cs).flatten = cs := by
  induction cs with
  | nil => rfl
  | cons c cs ih =>
    by_cases hc : c = '\n'
    · subst hc; simp [splitLines, ih]
    · simp only [splitLines, if_neg hc]
      cases h : splitLines cs with
      | nil =>
        rw [h] at ih
        simp only [List.flatten_nil] at ih
        simp [← ih]
      | cons l ls =>
        rw [h] at ih
        simp only [List.flatten_cons] at ih ⊢
        simp [ih]

theorem splitLines_term_append (m rest : List Char) (hm : '\n' ∉ m) :
    splitLines (m ++ '\n' :: rest) = (m ++ ['\n']) :: splitLines rest := by
  induction m with
  | nil => simp [splitLines]
  | cons c m ih =>
    have hc : c ≠ '\n' := fun h => hm (h ▸ List.mem_cons_self c m)
    have hm' : '\n' ∉ m := fun h => hm (List.mem_cons_of_mem _ h)
    simp only [List.cons_append, splitLines, if_neg hc, List.append_eq, ih hm']

theorem splitLines_bare {l : List Char} (hne : l ≠ []) (hm : '\n' ∉ l) :
    splitLines l = [l] := by
  induction l with
  | nil => exact absurd rfl hne
  | cons c cs ih =>
    have hc : c ≠ '\n' := fun h => hm (h ▸ List.mem_cons_self c cs)
    have hm' : '\n' ∉ cs := fun h => hm (List.mem_cons_of_mem _ h)
    simp only [splitLines, if_neg hc]
    cases cs with
    | nil => rfl
    | cons c' cs' => rw [ih (by simp) hm']

theorem termLine_envLine {k v : List Char} (hk : '\n' ∉ k) (hv : '\n' ∉ v) :
    TermLine (envLine k v) := by
  refine ⟨k ++ '=' :: v, ?_, by simp [envLine]⟩
  intro h
  rcases List.mem_append.mp h with h | h
  · exact hk h
  · rcases List.mem_cons.mp h with h | h
    · cases h
    · exact hv h

theorem goodLines_splitLines (cs : List Char) : GoodLines (splitLines cs) := by
  induction cs with
  | nil => exact .nil
  | cons c cs ih =>
    by_cases hc : c = '\n'
    · subst hc
      simp only [splitLines, if_pos rfl]
      exact .cons ⟨[], by simp⟩ ih
    · simp only [splitLines, if_neg hc]
      cases h : splitLines cs with
      | nil => exact .bare ⟨by simp, by simp [Ne.symm hc]⟩
      | cons l ls =>
        rw [h] at ih
        cases ih with
        | bare hb => exact .bare ⟨by simp, by simp [Ne.symm hc, hb.2]⟩
        | cons ht hg =>
          obtain ⟨m, hm, rfl⟩ := ht
          exact .cons ⟨c :: m, by simp [Ne.symm hc, hm], by simp⟩ hg

theorem splitLines_flatten_good {ls : List (List Char)} (h : GoodLines ls) :
    splitLines ls.flatten = ls := by
  induction h with
  | nil => rfl
  | bare hb => simpa using splitLines_bare hb.1 hb.2
  | @cons l ls ht hg ih =>
    obtain ⟨m, hm, rfl⟩ := ht
    calc splitLines ((m ++ ['\n']) :: ls).flatten
        = splitLines (m ++ '\n' :: ls.flatten) := by simp
      _ = (m ++ ['\n']) :: splitLines ls.flatten := splitLines_term_append _ _ hm
      _ = (m ++ ['\n']) :: ls := by rw [ih]

theorem goodLines_tail {a : List Char} {ls : List (List Char)}
    (h : GoodLines (a :: ls)) : GoodLines ls := by
  cases h with
  | bare _ => exact .nil
  | cons _ hg => exact hg

theorem goodLines_head_term {a : List Char} {ls : List (List Char)}
    (h : GoodLines (a :: ls)) (hne : ls ≠ []) : TermLine a := by
  cases h with
  | bare _ => exact absurd rfl hne
  | cons ha _ => exact ha

theorem goodLines_middle {pre post : List (List Char)} {l t : List Char}
    (h : GoodLines (pre ++ l :: post)) (ht : TermLine t) :
    GoodLines (pre ++ t :: post) := by
  induction pre with
  | nil =>
    simp only [List.nil_append] at h ⊢
    cases h with
    | bare _ => exact .cons ht .nil
    | cons _ hg => exact .cons ht hg
  | cons a pre ih =>
    simp only [List.cons_append] at h ⊢
    have ha : TermLine a := goodLines_head_term h (by simp)
    exact .cons ha (ih (goodLines_tail h))

theorem splitEq_sound {s k v : List Char} (h : splitEq s = some (k, v)) :
    s = k ++ '=' :: v := by
  induction s generalizing k v with
  | nil => cases h
  | cons c cs ih =>
    by_cases hc : c = '='
    · subst hc
      have h0 : splitEq ('=' :: cs) = some ([], cs) := rfl
      rw [h0] at h
      injection h with h2
      injection h2 with h3 h4
      subst h3; subst h4
      rfl
    · simp only [splitEq, if_neg hc, Option.map_eq_some'] at h
      obtain ⟨⟨k', v'⟩, hkv, heq⟩ := h
      simp only [Prod.mk.injEq] at heq
      rw [← heq.1, ← heq.2]
      simpa using ih hkv

theorem splitEq_complete {k : List Char} (v : List Char) (hk : '=' ∉ k) :
    splitEq (k ++ '=' :: v) = some (k, v) := by
  induction k with
  | nil => simp [splitEq]
  | cons c cs ih =>
    have hc : c ≠ '=' := fun h => hk (h ▸ List.mem_cons_self c cs)
    have hk' : '=' ∉ cs := fun h => hk (List.mem_cons_of_mem _ h)
    simp only [List.cons_append, splitEq, if_neg hc, List.append_eq, ih hk', Option.map_some']

theorem parseLine_envLine {k v : List Char} (hk : '=' ∉ k) :
    parseLine (envLine k v) = some (k, v) := by
  have h1 : envLine k v = (k ++ '=' :: v) ++ ['\n'] := by simp [envLine]
  have h2 : stripNewline (envLine k v) = k ++ '=' :: v := by
    rw [h1, stripNewline, List.getLast?_concat, if_pos rfl, List.dropLast_concat]
  rw [parseLine, h2, splitEq_complete _ hk]

theorem parseLine_key_of_match {k l : List Char}
    (hk2 : '=' ∉ k)
    (hmatch : prefixMatch (k ++ ['=']) l = true) :
    ∃ r, parseLine l = some (k, r) := by
  obtain ⟨r0, hr0⟩ := prefixMatch_iff.mp hmatch
  rw [List.append_assoc] at hr0
  simp only [List.singleton_append] at hr0
  subst hr0
  rw [parseLine, stripNewline]
  by_cases hlast : (k ++ '=' :: r0).getLast? = some '\n'
  · rw [if_pos hlast]
    cases r0 with
    | nil =>
      simp only [List.getLast?_append_cons, List.getLast?_singleton] at hlast
      exact absurd (Option.some.inj hlast) (by decide)
    | cons a r1 =>
      have : (k ++ '=' :: a :: r1).dropLast = k ++ '=' :: (a :: r1).dropLast := by
        rw [List.dropLast_append_cons]
        simp
      rw [this, splitEq_complete _ hk2]
      exact ⟨_, rfl⟩
  · rw [if_neg hlast, splitEq_complete _ hk2]
    exact ⟨_, rfl⟩

theorem parseLine_key_of_no_match {k l r : List Char}
    (hmatch : prefixMatch (k ++ ['=']) l = false)
    (hparse : parseLine l = some (k, r)) : False := by
  have hs : stripNewline l = k ++ '=' :: r := splitEq_sound hparse
  have hpre : prefixMatch (k ++ ['=']) (stripNewline l) = true := by
    have h2 : k ++ '=' :: r = (k ++ ['=']) ++ r := by simp
    rw [hs, h2]
    exact prefixMatch_append_self _ _
  have hl : prefixMatch (k ++ ['=']) l = true := by
    rw [stripNewline] at hpre
    by_cases hlast : l.getLast? = some '\n'
    · rw [if_pos hlast] at hpre
      obtain ⟨rest, hrest⟩ := prefixMatch_iff.mp hpre
      have : l = l.dropLast ++ [l.getLast (by rintro rfl; simp at hlast)] := by
        exact (List.dropLast_append_getLast _).symm
      rw [this, hrest, List.append_assoc]
      exact prefixMatch_append_self _ _
    · rwa [if_neg hlast] at hpre
  rw [hl] at hmatch
  cases hmatch

theorem lookupLines_append (k : List Char) (as bs : List (List Char)) :
    lookupLines k (as ++ bs) =
      match lookupLines k bs with
      | some v => some v
      | none => lookupLines k as := by
  induction as with
  | nil =>
    simp only [List.nil_append, lookupLines]
    cases lookupLines k bs <;> rfl
  | cons a as ih =>
    simp only [List.cons_append, lookupLines, List.append_eq, ih]
    cases lookupLines k bs <;> rfl

theorem lookupLines_none_of_no_key {k : List Char} {ls : List (List Char)}
    (h : ∀ l ∈ ls, ∀ r, parseLine l ≠ some (k, r)) :
    lookupLines k ls = none := by
  induction ls with
  | nil => rfl
  | cons l ls ih =>
    have hl := h l (List.mem_cons_self l ls)
    have ih' := ih (fun l' hl' => h l' (List.mem_cons_of_mem _ hl'))
    simp only [lookupLines, ih']
    cases hp : parseLine l with
    | none => rfl
    | some kv =>
      have : kv.1 ≠ k := by
        intro hk
        exact hl kv.2 (by rw [hp, ← hk])
      simp [this]

theorem lookupLines_env_last {k v : List Char} (hk : '=' ∉ k)
    (pre : List (List Char)) :
    lookupLines k (pre ++ [envLine k v]) = some v := by
  rw [lookupLines_append]
  have h1 : lookupLines k [envLine k v] = some v := by
    simp only [lookupLines, parseLine_envLine hk]
    simp
  rw [h1]

theorem replaceFirstLine_none_iff {k v : List Char} {ls : List (List Char)} :
    replaceFirstLine k v ls = none ↔
      ∀ l ∈ ls, prefixMatch (k ++ ['=']) l = false := by
  induction ls with
  | nil => simp [replaceFirstLine]
  | cons a as ih =>
    by_cases ha : prefixMatch (k ++ ['=']) a
    · simp [replaceFirstLine, ha]
    · simp only [replaceFirstLine, if_neg ha, Option.map_eq_none', ih,
        List.mem_cons, Bool.not_eq_true] at *
      constructor
      · rintro h l (rfl | hl)
        · simpa using ha
        · exact h l hl
      · intro h l hl
        exact h l (Or.inr hl)

theorem replaceFirstLine_some {k v : List Char} {ls ls' : List (List Char)}
    (h : replaceFirstLine k v ls = some ls') :
    ∃ pre x post,
      ls = pre ++ x :: post ∧
      prefixMatch (k ++ ['=']) x = true ∧
      (∀ l ∈ pre, prefixMatch (k ++ ['=']) l = false) ∧
      ls' = pre ++ envLine k v :: post := by
  induction ls generalizing ls' with
  | nil => cases h
  | cons a as ih =>
    by_cases ha : prefixMatch (k ++ ['=']) a
    · rw [replaceFirstLine, if_pos ha] at h
      exact ⟨[], a, as, by simp, ha, by simp, by simpa using h.symm⟩
    · rw [replaceFirstLine, if_neg ha] at h
      obtain ⟨inner, hinner, rfl⟩ := Option.map_eq_some'.mp h
      obtain ⟨pre, x, post, h1, h2, h3, h4⟩ := ih hinner
      refine ⟨a :: pre, x, post, by simp [h1], h2, ?_, by simp [h4]⟩
      intro l hl
      rcases List.mem_cons.mp hl with rfl | hl'
      · simpa using ha
      · exact h3 l hl'

theorem replaceFirstLine_found {k v : List Char} {x : List Char}
    (pre post : List (List Char))
    (hpre : ∀ l ∈ pre, prefixMatch (k ++ ['=']) l = false)
    (hx : prefixMatch (k ++ ['=']) x = true) :
    replaceFirstLine k v (pre ++ x :: post) = some (pre ++ envLine k v :: post) := by
  induction pre with
  | nil => simp [replaceFirstLine, hx]
  | cons a pre ih =>
    have ha := hpre a (List.mem_cons_self a pre)
    have h' := ih (fun l hl => hpre l (List.mem_cons_of_mem _ hl))
    simp only [List.cons_append, replaceFirstLine, ha, Bool.false_eq_true,
      if_false, List.append_eq, h', Option.map_some']

theorem countP_eq_one_split {p : List Char → Bool} {ls : List (List Char)}
    (h : ls.countP p = 1) :
    ∃ pre x post, ls = pre ++ x :: post ∧ p x = true ∧
      pre.countP p = 0 ∧ post.countP p = 0 := by
  induction ls with
  | nil => simp [List.countP_nil] at h
  | cons a as ih =>
    by_cases ha : p a
    · rw [List.countP_cons_of_pos _ _ ha] at h
      have h0 : as.countP p = 0 := by omega
      exact ⟨[], a, as, by simp, ha, by simp, h0⟩
    · rw [List.countP_cons_of_neg _ _ (by simpa using ha)] at h
      obtain ⟨pre, x, post, h1, h2, h3, h4⟩ := ih h
      refine ⟨a :: pre, x, post, by simp [h1], h2, ?_, h4⟩
      rw [List.countP_cons_of_neg _ _ (by simpa using ha), h3]

theorem flatten_getLast?_newline {ls : List (List Char)} {l : List Char}
    (hlast : ls.getLast? = some l) (hl : l.getLast? = some '\n') :
    ls.flatten.getLast? = some '\n' := by
  induction ls with
  | nil => cases hlast
  | cons a as ih =>
    cases as with
    | nil =>
      simp only [List.getLast?_singleton] at hlast
      obtain rfl := Option.some.inj hlast
      simpa using hl
    | cons b bs =>
      have h1 : (b :: bs).getLast? = some l := by
        rw [← hlast]
        exact (List.getLast?_cons_cons ..).symm
      have h2 := ih h1
      have hne : (b :: bs).flatten ≠ [] := by
        intro hc
        rw [hc] at h2
        cases h2
      rw [List.flatten_cons, List.getLast?_append_of_ne_nil _ hne]
      exact h2


theorem splitLines_cons_newline (cs : List Char) :
    splitLines ('\n' :: cs) = ['\n'] :: splitLines cs := rfl

theorem splitLines_cons_of_ne {c : Char} (hc : ¬c = '\n') (cs : List Char) :
    splitLines (c :: cs) =
      match splitLines cs with
      | [] => [[c]]
      | l :: ls => (c :: l) :: ls := by
  simp only [splitLines, if_neg hc]

theorem splitLines_append {cs : List Char} (ds : List Char)
    (h : cs.getLast? = some '\n') :
    splitLines (cs ++ ds) = splitLines cs ++ splitLines ds := by
  induction cs with
  | nil => cases h
  | cons c cs ih =>
    cases cs with
    | nil =>
      have hc : c = '\n' := by simpa using h
      subst hc
      rw [List.singleton_append, splitLines_cons_newline]
      rfl
    | cons c' cs' =>
      have h' : (c' :: cs').getLast? = some '\n' := by
        rw [← h]; exact (List.getLast?_cons_cons ..).symm
      by_cases hc : c = '\n'
      · subst hc
        rw [List.cons_append, splitLines_cons_newline, splitLines_cons_newline, ih h']
        rfl
      · rw [List.cons_append, splitLines_cons_of_ne hc, splitLines_cons_of_ne hc, ih h']
        cases hsl : splitLines (c' :: cs') with
        | nil => exact absurd hsl (splitLines_ne_nil (by simp))
        | cons l ls => simp

theorem splitLines_snoc_newline (cs : List Char) :
    splitLines (cs ++ ['\n']) = splitLines cs ++ [['\n']] ∨
      ∃ init lst, splitLines cs = init ++ [lst] ∧
        splitLines (cs ++ ['\n']) = init ++ [lst ++ ['\n']] := by
  induction cs with
  | nil => left; rfl
  | cons c cs ih =>
    by_cases hc : c = '\n'
    · subst hc
      rcases ih with h | ⟨init, lst, h1, h2⟩
      · left
        rw [List.cons_append, splitLines_cons_newline, h, splitLines_cons_newline]
        rfl
      · right
        refine ⟨['\n'] :: init, lst, ?_, ?_⟩
        · rw [splitLines_cons_newline, h1]; rfl
        · rw [List.cons_append, splitLines_cons_newline, h2]; rfl
    · cases hsl : splitLines cs with
      | nil =>
        have hcs : cs = [] := by
          by_contra hne
          exact splitLines_ne_nil hne hsl
        subst hcs
        right
        refine ⟨[], [c], ?_, ?_⟩
        · rw [splitLines_cons_of_ne hc]; rfl
        · rw [List.cons_append, List.nil_append, splitLines_cons_of_ne hc]; rfl
      | cons l2 ls2 =>
        rcases ih with h | ⟨init, lst, h1, h2⟩
        · left
          rw [List.cons_append, splitLines_cons_of_ne hc, splitLines_cons_of_ne hc, h, hsl]
          simp
        · rw [hsl] at h1
          right
          cases init with
          | nil =>
            simp only [List.nil_append] at h1
            injection h1 with h1a h1b
            subst h1a
            subst h1b
            simp only [List.nil_append] at h2
            refine ⟨[], c :: l2, ?_, ?_⟩
            · rw [splitLines_cons_of_ne hc, hsl]
              rfl
            · rw [List.cons_append, splitLines_cons_of_ne hc, h2]
              rfl
          | cons i0 init' =>
            injection h1 with h1a h1b
            subst h1a
            subst h1b
            refine ⟨(c :: l2) :: init', lst, ?_, ?_⟩
            · rw [splitLines_cons_of_ne hc, hsl]
              simp
            · rw [List.cons_append, splitLines_cons_of_ne hc, h2]
              simp

theorem fixTail_flatten_newline {ls : List (List Char)} (hne : ls ≠ []) :
    (fixTail ls).flatten.getLast? = some '\n' := by
  cases hl : ls.getLast? with
  | none =>
    rw [List.getLast?_eq_none_iff] at hl
    exact absurd hl hne
  | some l =>
    by_cases hln : l.getLast? = some '\n'
    · have hft : fixTail ls = ls := by
        rw [fixTail, hl]
        simp [hln]
      rw [hft]
      exact flatten_getLast?_newline hl hln
    · have hft : fixTail ls = ls ++ [['\n']] := by
        rw [fixTail, hl]
        simp [hln]
      rw [hft]
      have : (ls ++ [['\n']]).flatten = ls.flatten ++ ['\n'] := by simp
      rw [this, List.getLast?_concat]

theorem no_match_snoc_newline {p l : List Char} (hp : '\n' ∉ p)
    (h : prefixMatch p l = false) : prefixMatch p (l ++ ['\n']) = false := by
  cases hpm : prefixMatch p (l ++ ['\n']) with
  | false => rfl
  | true =>
    rw [prefixMatch_of_snoc_newline hp hpm] at h
    cases h

theorem no_match_newline_line {p : List Char} (hp : '\n' ∉ p) (hne : p ≠ []) :
    prefixMatch p ['\n'] = false := by
  cases p with
  | nil => exact absurd rfl hne
  | cons c ps =>
    have hc : c ≠ '\n' := fun h => hp (h ▸ List.mem_cons_self c ps)
    cases ps with
    | nil => simpa [prefixMatch] using hc
    | cons c' ps' => simp [prefixMatch, hc]

theorem no_newline_key_eq {k : List Char} (hk1 : '\n' ∉ k) :
    '\n' ∉ (k ++ ['=']) := by
  intro h
  rcases List.mem_append.mp h with h | h
  · exact hk1 h
  · rcases List.mem_singleton.mp h with h
    cases h

theorem splitLines_envLine {k v : List Char} (hk : '\n' ∉ k) (hv : '\n' ∉ v) :
    splitLines (envLine k v) = [envLine k v] := by
  have hm : '\n' ∉ (k ++ '=' :: v) := by
    intro h
    rcases List.mem_append.mp h with h | h
    · exact hk h
    · rcases List.mem_cons.mp h with h | h
      · cases h
      · exact hv h
  have h1 := splitLines_term_append (k ++ '=' :: v) [] hm
  simpa [envLine, splitLines] using h1

/-- C1 (amended): for a key without newline or `=` and a value without
newline, writing to an existing store in which at most one line defines the
key, then freshly loading, yields the written value. -/
theorem save_to_env_roundtrip (k v c : String)
    (hk1 : '\n' ∉ k.data) (hk2 : '=' ∉ k.data) (hv : '\n' ∉ v.data)
    (hdup : linesDefining k c ≤ 1) :
    dotenvValue (save_to_env k v (some c)) k = some v := by
  simp only [linesDefining] at hdup
  simp only [save_to_env, dotenvValue, data_stringMk]
  cases hrep : replaceFirstLine k.data v.data (splitLines c.data) with
  | some ls' =>
    have hout : saveLines k.data v.data (splitLines c.data) = ls' := by
      rw [saveLines, hrep]
    obtain ⟨pre, x, post, hls, hx, hpre, hls'⟩ := replaceFirstLine_some hrep
    have hgood0 : GoodLines (pre ++ x :: post) := by
      rw [← hls]
      exact goodLines_splitLines c.data
    have hgood : GoodLines ls' := by
      rw [hls']
      exact goodLines_middle hgood0 (termLine_envLine hk1 hv)
    have hsplit : splitLines ls'.flatten = ls' := splitLines_flatten_good hgood
    rw [hls] at hdup
    rw [List.countP_append, List.countP_cons_of_pos _ _ hx] at hdup
    have hpre0 : pre.countP (fun l => prefixMatch (k.data ++ ['=']) l) = 0 :=
      List.countP_eq_zero.mpr (by intro a ha; simp [hpre a ha])
    have hpost0 : post.countP (fun l => prefixMatch (k.data ++ ['=']) l) = 0 := by
      have heta : List.countP (prefixMatch (k.data ++ ['='])) post
          = post.countP (fun l => prefixMatch (k.data ++ ['=']) l) := rfl
      rw [hpre0, heta] at hdup
      omega
    have hpost : ∀ l ∈ post, prefixMatch (k.data ++ ['=']) l = false := by
      intro a ha
      simpa using List.countP_eq_zero.mp hpost0 a ha
    have hlookpost : lookupLines k.data post = none := by
      apply lookupLines_none_of_no_key
      intro l hl r hparse
      exact parseLine_key_of_no_match (hpost l hl) hparse
    have hmid : lookupLines k.data (envLine k.data v.data :: post) = some v.data := by
      simp only [lookupLines, hlookpost, parseLine_envLine hk2]
      simp
    rw [hout, hsplit, hls', lookupLines_append, hmid]
    simp [stringMk_data]
  | none =>
    have hout : saveLines k.data v.data (splitLines c.data)
        = fixTail (splitLines c.data) ++ [envLine k.data v.data] := by
      rw [saveLines, hrep]
    by_cases hnil : splitLines c.data = []
    · rw [hout, hnil]
      have hfe : (fixTail [] ++ [envLine k.data v.data]).flatten
          = envLine k.data v.data := by
        simp [fixTail]
      rw [hfe, splitLines_envLine hk1 hv]
      have := lookupLines_env_last (v := v.data) hk2 []
      simp only [List.nil_append] at this
      rw [this]
      simp [stringMk_data]
    · have hA : ((fixTail (splitLines c.data)).flatten).getLast? = some '\n' :=
        fixTail_flatten_newline hnil
      have hflat : ((fixTail (splitLines c.data)) ++ [envLine k.data v.data]).flatten
          = (fixTail (splitLines c.data)).flatten ++ envLine k.data v.data := by
        simp
      rw [hout, hflat, splitLines_append _ hA, splitLines_envLine hk1 hv,
        lookupLines_env_last hk2]
      simp [stringMk_data]

/-- C1 witness: a concrete round trip through an existing store. -/
theorem save_to_env_roundtrip_witness :
    dotenvValue (save_to_env "WORKFLOW_ID" "abc123" (some "A=1\n")) "WORKFLOW_ID"
      = some "abc123" :=
  save_to_env_roundtrip "WORKFLOW_ID" "abc123" "A=1\n"
    (by decide) (by decide) (by decide) (by decide)

/-- C1 counterexample: the claim fails as stated, on a store with two lines
defining the key (only the first is rewritten, and a fresh load resolves
the later one), and on a value containing a newline. -/
theorem save_to_env_roundtrip_refuted :
    dotenvValue (save_to_env "K" "9" (some "K=1\nK=2\n")) "K" ≠ some "9" ∧
    dotenvValue (save_to_env "K" "a\nb" (some "X=1\n")) "K" ≠ some "a\nb" := by
  decide

theorem prefixMatch_envLine {k v : List Char} :
    prefixMatch (k ++ ['=']) (envLine k v) = true := by
  have he : envLine k v = (k ++ ['=']) ++ (v ++ ['\n']) := by simp [envLine]
  rw [he]
  exact prefixMatch_append_self _ _

theorem save_env_second_lines {k v : List Char} (pre : List (List Char))
    (hpre : ∀ l ∈ pre, prefixMatch (k ++ ['=']) l = false) :
    replaceFirstLine k v (pre ++ [envLine k v]) = some (pre ++ [envLine k v]) :=
  replaceFirstLine_found pre [] hpre prefixMatch_envLine

theorem save_to_env_twice_eq (k v c : String)
    (hk : '\n' ∉ k.data) (hv : '\n' ∉ v.data) :
    save_to_env k v (some (save_to_env k v (some c))) = save_to_env k v (some c) := by
  simp only [save_to_env, data_stringMk]
  cases hrep : replaceFirstLine k.data v.data (splitLines c.data) with
  | some ls' =>
    have hout : saveLines k.data v.data (splitLines c.data) = ls' := by
      rw [saveLines, hrep]
    obtain ⟨pre, x, post, hls, hx, hpre, hls'⟩ := replaceFirstLine_some hrep
    have hgood0 : GoodLines (pre ++ x :: post) := by
      rw [← hls]; exact goodLines_splitLines c.data
    have hgood : GoodLines ls' := by
      rw [hls']; exact goodLines_middle hgood0 (termLine_envLine hk hv)
    have hsplit : splitLines ls'.flatten = ls' := splitLines_flatten_good hgood
    have hrep2 : replaceFirstLine k.data v.data ls' = some ls' := by
      rw [hls']
      exact replaceFirstLine_found pre post hpre prefixMatch_envLine
    have hsave2 : saveLines k.data v.data ls' = ls' := by
      rw [saveLines, hrep2]
    rw [hout, hsplit, hsave2]
  | none =>
    have hnomatch := replaceFirstLine_none_iff.mp hrep
    have hout : saveLines k.data v.data (splitLines c.data)
        = fixTail (splitLines c.data) ++ [envLine k.data v.data] := by
      rw [saveLines, hrep]
    by_cases hnil : splitLines c.data = []
    · rw [hout, hnil]
      have h1 : ((fixTail ([] : List (List Char))) ++ [envLine k.data v.data]).flatten
          = envLine k.data v.data := by
        simp [fixTail]
      rw [h1, splitLines_envLine hk hv]
      have hrep2 : replaceFirstLine k.data v.data [envLine k.data v.data]
          = some [envLine k.data v.data] :=
        save_env_second_lines [] (by simp)
      have hsave2 : saveLines k.data v.data [envLine k.data v.data]
          = [envLine k.data v.data] := by
        rw [saveLines, hrep2]
      rw [hsave2]
      simp
    · have hA : ((fixTail (splitLines c.data)).flatten).getLast? = some '\n' :=
        fixTail_flatten_newline hnil
      have hsplit1 : splitLines (((fixTail (splitLines c.data)) ++ [envLine k.data v.data]).flatten)
          = splitLines ((fixTail (splitLines c.data)).flatten) ++ [envLine k.data v.data] := by
        have hflat : ((fixTail (splitLines c.data)) ++ [envLine k.data v.data]).flatten
            = (fixTail (splitLines c.data)).flatten ++ envLine k.data v.data := by
          simp
        rw [hflat, splitLines_append _ hA, splitLines_envLine hk hv]
      have hpreA : ∀ l ∈ splitLines ((fixTail (splitLines c.data)).flatten),
          prefixMatch (k.data ++ ['=']) l = false := by
        cases hl : (splitLines c.data).getLast? with
        | none => exact absurd (List.getLast?_eq_none_iff.mp hl) hnil
        | some lst0 =>
          by_cases hln : lst0.getLast? = some '\n'
          · have hft : fixTail (splitLines c.data) = splitLines c.data := by
              rw [fixTail, hl]; simp [hln]
            rw [hft, flatten_splitLines]
            exact hnomatch
          · have hft : fixTail (splitLines c.data) = splitLines c.data ++ [['\n']] := by
              rw [fixTail, hl]; simp [hln]
            have hA2 : ((fixTail (splitLines c.data)).flatten) = c.data ++ ['\n'] := by
              rw [hft]
              simp [flatten_splitLines]
            rw [hA2]
            have hkey : '\n' ∉ (k.data ++ ['=']) := no_newline_key_eq hk
            rcases splitLines_snoc_newline c.data with h | ⟨init, lst, h1, h2⟩
            · rw [h]
              intro l hl2
              rcases List.mem_append.mp hl2 with h3 | h3
              · exact hnomatch l h3
              · rcases List.mem_singleton.mp h3 with rfl
                exact no_match_newline_line hkey (by simp)
            · rw [h2]
              intro l hl2
              rcases List.mem_append.mp hl2 with h3 | h3
              · exact hnomatch l (by rw [h1]; exact List.mem_append_left _ h3)
              · rcases List.mem_singleton.mp h3 with rfl
                have hlst : lst ∈ splitLines c.data := by
                  rw [h1]
                  exact List.mem_append_right _ (List.mem_singleton.mpr rfl)
                exact no_match_snoc_newline hkey (hnomatch lst hlst)
      have hrep2 := save_env_second_lines (v := v.data) _ hpreA
      have hsave2 : saveLines k.data v.data
          (splitLines ((fixTail (splitLines c.data)).flatten) ++ [envLine k.data v.data])
          = splitLines ((fixTail (splitLines c.data)).flatten) ++ [envLine k.data v.data] := by
        rw [saveLines, hrep2]
      rw [hout, hsplit1, hsave2]
      apply congrArg String.mk
      simp [flatten_splitLines]

/-- C3 (amended): for a key and value without newlines, writing the same
pair twice leaves the store byte-identical to writing it once, so the
key-to-value mapping is unchanged and the number of lines defining the key
does not grow. -/
theorem save_to_env_idempotent (k v c : String)
    (hk : '\n' ∉ k.data) (hv : '\n' ∉ v.data) :
    save_to_env k v (some (save_to_env k v (some c))) = save_to_env k v (some c) ∧
    (∀ q : String,
      dotenvValue (save_to_env k v (some (save_to_env k v (some c)))) q
        = dotenvValue (save_to_env k v (some c)) q) ∧
    linesDefining k (save_to_env k v (some (save_to_env k v (some c))))
      = linesDefining k (save_to_env k v (some c)) := by
  have h := save_to_env_twice_eq k v c hk hv
  rw [h]
  exact ⟨rfl, fun q => rfl, rfl⟩

/-- C3 witness: a concrete repeated write leaves the store unchanged. -/
theorem save_to_env_idempotent_witness :
    save_to_env "K" "9" (some (save_to_env "K" "9" (some "A=1\nK=2\n")))
      = save_to_env "K" "9" (some "A=1\nK=2\n") ∧
    linesDefining "K" (save_to_env "K" "9" (some (save_to_env "K" "9" (some "A=1\nK=2\n"))))
      = linesDefining "K" (save_to_env "K" "9" (some "A=1\nK=2\n")) :=
  ⟨(save_to_env_idempotent "K" "9" "A=1\nK=2\n" (by decide) (by decide)).1,
   (save_to_env_idempotent "K" "9" "A=1\nK=2\n" (by decide) (by decide)).2.2⟩

/-- C3 counterexample: with a value containing a newline that spells a new
`K=` line, the second write duplicates that line, so the count of lines
defining the key grows from two to three. -/
theorem save_to_env_idempotent_refuted :
    linesDefining "K" (save_to_env "K" "a\nK=b" (some (save_to_env "K" "a\nK=b" (some "")))) = 3 ∧
    linesDefining "K" (save_to_env "K" "a\nK=b" (some "")) = 2 := by
  decide

theorem lookupLines_cons_of_ne {q l : List Char} (ls : List (List Char))
    (hkey : ∀ r, parseLine l ≠ some (q, r)) :
    lookupLines q (l :: ls) = lookupLines q ls := by
  simp only [lookupLines]
  cases h : lookupLines q ls with
  | some v => rfl
  | none =>
    cases hp : parseLine l with
    | none => rfl
    | some kv =>
      have hne : kv.1 ≠ q := by
        intro hq
        exact hkey kv.2 (by rw [hp, ← hq])
      simp [hne]

theorem map_if_no_match {p : List Char → Bool} {t : List Char} {xs : List (List Char)}
    (h : ∀ l ∈ xs, p l = false) :
    xs.map (fun l => if p l then t else l) = xs := by
  induction xs with
  | nil => rfl
  | cons a as ih =>
    rw [List.map_cons, ih (fun l hl => h l (List.mem_cons_of_mem _ hl))]
    simp [h a (List.mem_cons_self a as)]

/-- C4 (amended): when exactly one line of the store defines a key without
newline or `=`, and both written values are newline-free, writing `v1` then
`v2` rewrites exactly that line in place (every other line keeps its content
and position), a fresh read of the key yields `v2`, and every other key
resolves exactly as in the original store. -/
theorem save_to_env_frame (k v1 v2 c : String)
    (hk1 : '\n' ∉ k.data) (hk2 : '=' ∉ k.data)
    (hv1 : '\n' ∉ v1.data) (hv2 : '\n' ∉ v2.data)
    (hone : linesDefining k c = 1) :
    splitLines (save_to_env k v2 (some (save_to_env k v1 (some c)))).data
      = (splitLines c.data).map
          (fun l => if prefixMatch (k.data ++ ['=']) l then envLine k.data v2.data else l) ∧
    dotenvValue (save_to_env k v2 (some (save_to_env k v1 (some c)))) k = some v2 ∧
    (∀ q : String, q.data ≠ k.data →
      dotenvValue (save_to_env k v2 (some (save_to_env k v1 (some c)))) q
        = dotenvValue c q) := by
  simp only [linesDefining] at hone
  obtain ⟨pre, x, post, hls, hx, hpre0, hpost0⟩ := countP_eq_one_split hone
  have hpre : ∀ l ∈ pre, prefixMatch (k.data ++ ['=']) l = false := by
    intro a ha
    simpa using List.countP_eq_zero.mp hpre0 a ha
  have hpost : ∀ l ∈ post, prefixMatch (k.data ++ ['=']) l = false := by
    intro a ha
    simpa using List.countP_eq_zero.mp hpost0 a ha
  have hgood0 : GoodLines (pre ++ x :: post) := by
    rw [← hls]; exact goodLines_splitLines c.data
  -- first write
  have hrep1 : replaceFirstLine k.data v1.data (splitLines c.data)
      = some (pre ++ envLine k.data v1.data :: post) := by
    rw [hls]; exact replaceFirstLine_found pre post hpre hx
  have hsave1 : saveLines k.data v1.data (splitLines c.data)
      = pre ++ envLine k.data v1.data :: post := by
    rw [saveLines, hrep1]
  have hgood1 : GoodLines (pre ++ envLine k.data v1.data :: post) :=
    goodLines_middle hgood0 (termLine_envLine hk1 hv1)
  have hsplit1 : splitLines (save_to_env k v1 (some c)).data
      = pre ++ envLine k.data v1.data :: post := by
    simp only [save_to_env, data_stringMk, hsave1]
    exact splitLines_flatten_good hgood1
  -- second write
  have hrep2 : replaceFirstLine k.data v2.data (pre ++ envLine k.data v1.data :: post)
      = some (pre ++ envLine k.data v2.data :: post) :=
    replaceFirstLine_found pre post hpre prefixMatch_envLine
  have hsave2 : saveLines k.data v2.data (splitLines (save_to_env k v1 (some c)).data)
      = pre ++ envLine k.data v2.data :: post := by
    rw [hsplit1, saveLines, hrep2]
  have hgood2 : GoodLines (pre ++ envLine k.data v2.data :: post) :=
    goodLines_middle hgood0 (termLine_envLine hk1 hv2)
  have hsplit2 : splitLines (save_to_env k v2 (some (save_to_env k v1 (some c)))).data
      = pre ++ envLine k.data v2.data :: post := by
    have e1 : save_to_env k v2 (some (save_to_env k v1 (some c)))
        = String.mk (List.flatten
            (saveLines k.data v2.data (splitLines (save_to_env k v1 (some c)).data))) := rfl
    rw [e1, data_stringMk, hsave2]
    exact splitLines_flatten_good hgood2
  refine ⟨?_, ?_, ?_⟩
  · rw [hsplit2, hls, List.map_append, List.map_cons, map_if_no_match hpre,
      map_if_no_match hpost, if_pos hx]
  · have hlookpost : lookupLines k.data post = none := by
      apply lookupLines_none_of_no_key
      intro l hl r hparse
      exact parseLine_key_of_no_match (hpost l hl) hparse
    have hmid : lookupLines k.data (envLine k.data v2.data :: post) = some v2.data := by
      simp only [lookupLines, hlookpost, parseLine_envLine hk2]
      simp
    rw [dotenvValue, hsplit2, lookupLines_append, hmid]
    simp [stringMk_data]
  · intro q hq
    obtain ⟨r0, hr0⟩ := parseLine_key_of_match hk2 hx
    have henvkey : ∀ r, parseLine (envLine k.data v2.data) ≠ some (q.data, r) := by
      intro r hr
      rw [parseLine_envLine hk2] at hr
      injection hr with hr2
      injection hr2 with hr3 _
      exact hq hr3.symm
    have hxkey : ∀ r, parseLine x ≠ some (q.data, r) := by
      intro r hr
      rw [hr0] at hr
      injection hr with hr2
      injection hr2 with hr3 _
      exact hq hr3.symm
    rw [dotenvValue, dotenvValue, hsplit2, hls]
    rw [lookupLines_append, lookupLines_append,
      lookupLines_cons_of_ne post henvkey, lookupLines_cons_of_ne post hxkey]

/-- C4 witness: a concrete in-place rewrite, with the other key untouched. -/
theorem save_to_env_frame_witness :
    dotenvValue (save_to_env "A" "9" (some (save_to_env "A" "x" (some "A=1\nB=2\n")))) "A"
      = some "9" ∧
    dotenvValue (save_to_env "A" "9" (some (save_to_env "A" "x" (some "A=1\nB=2\n")))) "B"
      = dotenvValue "A=1\nB=2\n" "B" :=
  ⟨(save_to_env_frame "A" "x" "9" "A=1\nB=2\n"
      (by decide) (by decide) (by decide) (by decide) (by decide)).2.1,
   (save_to_env_frame "A" "x" "9" "A=1\nB=2\n"
      (by decide) (by decide) (by decide) (by decide) (by decide)).2.2 "B" (by decide)⟩

/-- C4 counterexample: the claim fails as stated.  With two lines defining
the key, a fresh read after the two writes still yields the untouched later
line, not `v2`; and with a first value containing a newline, the line of
another key (`B`) is pushed from position 1 to position 2. -/
theorem save_to_env_frame_refuted :
    dotenvValue (save_to_env "A" "9" (some (save_to_env "A" "x" (some "A=1\nA=2\n")))) "A"
      ≠ some "9" ∧
    (splitLines ("K=0\nB=2\n" : String).data)[1]? = some ("B=2\n" : String).data ∧
    (splitLines (save_to_env "K" "9" (some (save_to_env "K" "x\nX=1" (some "K=0\nB=2\n")))).data)[1]?
      = some ("X=1\n" : String).data := by
  decide

/-- C2: the classifier returns the shared label exactly when the resolved
base URL contains the token "experiment" case-insensitively, the dedicated
label exactly when the URL is non-empty without that token, and the unknown
label exactly when the URL is empty or absent. -/
theorem get_instance_type_spec (u : Option String) :
    (get_instance_type u = "shared_experiment" ↔
      ∃ pre post, lowerList (u.getD "").data = pre ++ "experiment".data ++ post) ∧
    (get_instance_type u = "dedicated" ↔
      (u.getD "" ≠ "" ∧
        ¬∃ pre post, lowerList (u.getD "").data = pre ++ "experiment".data ++ post)) ∧
    (get_instance_type u = "unknown" ↔ u.getD "" = "") := by
  by_cases hu : u.getD "" = ""
  · have h0 : get_instance_type u = "unknown" := by
      rw [get_instance_type]
      simp [hu]
    have hnotok : ¬∃ pre post,
        lowerList (u.getD "").data = pre ++ "experiment".data ++ post := by
      intro hex
      have hs : hasSubstr "experiment".data (lowerList (u.getD "").data) = true :=
        hasSubstr_iff.mpr hex
      rw [hu] at hs
      exact absurd hs (by decide)
    refine ⟨⟨fun h => absurd (h0.symm.trans h) (by decide), fun h => absurd h hnotok⟩,
            ⟨fun h => absurd (h0.symm.trans h) (by decide), fun h => absurd hu h.1⟩,
            ⟨fun _ => hu, fun _ => h0⟩⟩
  · by_cases hexp : hasSubstr "experiment".data (lowerList (u.getD "").data) = true
    · have h0 : get_instance_type u = "shared_experiment" := by
        rw [get_instance_type]
        simp [hu, hexp]
      have hex := hasSubstr_iff.mp hexp
      exact ⟨⟨fun _ => hex, fun _ => h0⟩,
             ⟨fun h => absurd (h0.symm.trans h) (by decide), fun h => absurd hex h.2⟩,
             ⟨fun h => absurd (h0.symm.trans h) (by decide), fun h => absurd h hu⟩⟩
    · have h0 : get_instance_type u = "dedicated" := by
        rw [get_instance_type]
        simp [hu, hexp]
      have hnotok : ¬∃ pre post,
          lowerList (u.getD "").data = pre ++ "experiment".data ++ post :=
        fun hex => hexp (hasSubstr_iff.mpr hex)
      exact ⟨⟨fun h => absurd (h0.symm.trans h) (by decide), fun h => absurd h hnotok⟩,
             ⟨fun _ => ⟨hu, hnotok⟩, fun _ => h0⟩,
             ⟨fun h => absurd (h0.symm.trans h) (by decide), fun h => absurd h hu⟩⟩

/-- C5: the validation gate's machine-readable report is a function of key
presence and the derived classification only — two environments that agree
on presence of the checked keys and on the classification produce identical
reports, so no credential or secret value can flow into the report — and
the instance-type field is always one of the three fixed labels. -/
theorem check_env_vars_secrecy (env1 env2 : String → Option String)
    (hpres : ∀ key ∈ checkedKeys, envPresent env1 key = envPresent env2 key)
    (htype : get_instance_type (env1 "PHENOML_BASE_URL")
      = get_instance_type (env2 "PHENOML_BASE_URL")) :
    check_env_vars env1 = check_env_vars env2 ∧
    ((check_env_vars env1).instance_type = "shared_experiment" ∨
     (check_env_vars env1).instance_type = "dedicated" ∨
     (check_env_vars env1).instance_type = "unknown") := by
  constructor
  · have h1 := hpres "PHENOML_USERNAME" (by decide)
    have h2 := hpres "PHENOML_PASSWORD" (by decide)
    have h3 := hpres "PHENOML_BASE_URL" (by decide)
    have h4 := hpres "FHIR_PROVIDER_BASE_URL" (by decide)
    have h5 := hpres "FHIR_PROVIDER_CLIENT_ID" (by decide)
    have h6 := hpres "FHIR_PROVIDER_CLIENT_SECRET" (by decide)
    have h7 := hpres "FHIR_PROVIDER_ID" (by decide)
    have h8 := hpres "WORKFLOW_ID" (by decide)
    simp only [check_env_vars, h1, h2, h3, h4, h5, h6, h7, h8, htype]
  · simp only [check_env_vars]
    by_cases hu : (env1 "PHENOML_BASE_URL").getD "" = ""
    · right; right
      rw [get_instance_type]
      simp [hu]
    · by_cases hexp : hasSubstr "experiment".data
          (lowerList ((env1 "PHENOML_BASE_URL").getD "").data) = true
      · left
        rw [get_instance_type]
        simp [hu, hexp]
      · right; left
        rw [get_instance_type]
        simp [hu, hexp]

/-- C5 witness: two environments holding different secret values (user
names, passwords) produce byte-identical reports. -/
theorem check_env_vars_secrecy_witness :
    check_env_vars secretEnvA = check_env_vars secretEnvB ∧
    ((check_env_vars secretEnvA).instance_type = "shared_experiment" ∨
     (check_env_vars secretEnvA).instance_type = "dedicated" ∨
     (check_env_vars secretEnvA).instance_type = "unknown") :=
  check_env_vars_secrecy secretEnvA secretEnvB (by decide) (by decide)

/-- C6: whenever the classifier reports shared mode, the report marks
FHIR_PROVIDER_ID present (even with the variable unset), and the status
printer heads the provider-credential section with "not required". -/
theorem shared_mode_default_id (env : String → Option String)
    (hshared : get_instance_type (env "PHENOML_BASE_URL") = "shared_experiment") :
    (check_env_vars env).gen_FHIR_PROVIDER_ID = true ∧
    fhir_section_header (check_env_vars env).instance_type
      = "FHIR Provider Credentials: (not required for shared experiment)" := by
  constructor
  · simp only [check_env_vars]
    rw [hshared]
    simp
  · simp only [check_env_vars]
    rw [fhir_section_header, hshared]
    simp

/-- C6 witness: a shared-experiment environment with FHIR_PROVIDER_ID
genuinely unset is still reported as having it. -/
theorem shared_mode_default_id_witness :
    sharedEnv "FHIR_PROVIDER_ID" = none ∧
    (check_env_vars sharedEnv).gen_FHIR_PROVIDER_ID = true ∧
    fhir_section_header (check_env_vars sharedEnv).instance_type
      = "FHIR Provider Credentials: (not required for shared experiment)" :=
  ⟨by decide,
   (shared_mode_default_id sharedEnv (by decide)).1,
   (shared_mode_default_id sharedEnv (by decide)).2⟩

/-- C7: any injected I/O failure while reading or writing the store file
propagates out of the store writer as that persistence error, and the
caller then exits with code 1 while the remotely created workflow remains
in place (no rollback). -/
theorem save_to_env_fs_failure (k v : String) (fs : FSState) (e : PersistenceError)
    (h : (fs.file.isSome = true ∧ fs.readFailure = some e) ∨
         (fs.readFailure = none ∧ fs.writeFailure = some e)) :
    save_to_env_fs k v fs = .error e ∧
    finish_create (save_to_env_fs k v fs) = (1, true) := by
  have herr : save_to_env_fs k v fs = .error e := by
    rcases h with ⟨hf, hr⟩ | ⟨hr, hw⟩
    · obtain ⟨c, hc⟩ := Option.isSome_iff_exists.mp hf
      rw [save_to_env_fs, hc, hr]
    · cases hc : fs.file with
      | none => rw [save_to_env_fs, hc, hw]
      | some c => rw [save_to_env_fs, hc, hr, hw]
  exact ⟨herr, by rw [herr]; rfl⟩

/-- C7 witness: a permission-denied failure on the read of an existing
store file surfaces as that error and as exit code 1 without rollback. -/
theorem save_to_env_fs_failure_witness :
    save_to_env_fs "WORKFLOW_ID" "w1"
        ⟨some "A=1\n", some PersistenceError.permissionDenied, none⟩
      = .error PersistenceError.permissionDenied ∧
    finish_create (save_to_env_fs "WORKFLOW_ID" "w1"
        ⟨some "A=1\n", some PersistenceError.permissionDenied, none⟩) = (1, true) :=
  save_to_env_fs_failure "WORKFLOW_ID" "w1"
    ⟨some "A=1\n", some PersistenceError.permissionDenied, none⟩
    PersistenceError.permissionDenied (Or.inl ⟨by decide, by decide⟩)

/-- C8 counterexample: a dedicated-mode environment with every provider
credential missing still exits with code 0, so provider-credential
incompleteness is not a failure condition of the script's exit gate. -/
theorem main_exit_code_refuted :
    get_instance_type (dedicatedEnv "PHENOML_BASE_URL") = "dedicated" ∧
    (check_env_vars dedicatedEnv).fhir_FHIR_PROVIDER_BASE_URL = false ∧
    (check_env_vars dedicatedEnv).fhir_FHIR_PROVIDER_CLIENT_ID = false ∧
    (check_env_vars dedicatedEnv).fhir_FHIR_PROVIDER_CLIENT_SECRET = false ∧
    main_exit_code dedicatedEnv = 0 := by
  decide

/-- C8 (amended): the script exits nonzero exactly when the core
credentials are incomplete; the provider-credential booleans live in their
own distinct report category but never affect the exit code. -/
theorem main_exit_code_spec (env : String → Option String) :
    (main_exit_code env = 0 ↔
      ((check_env_vars env).core_PHENOML_USERNAME = true ∧
       (check_env_vars env).core_PHENOML_PASSWORD = true ∧
       (check_env_vars env).core_PHENOML_BASE_URL = true)) ∧
    (main_exit_code env = 1 ↔
      ¬((check_env_vars env).core_PHENOML_USERNAME = true ∧
        (check_env_vars env).core_PHENOML_PASSWORD = true ∧
        (check_env_vars env).core_PHENOML_BASE_URL = true)) := by
  simp only [main_exit_code]
  by_cases h : ((check_env_vars env).core_PHENOML_USERNAME &&
      (check_env_vars env).core_PHENOML_PASSWORD &&
      (check_env_vars env).core_PHENOML_BASE_URL) = true
  · rw [if_pos h]
    simp only [Bool.and_eq_true] at h
    constructor
    · simp [h.1.1, h.1.2, h.2]
    · simp [h.1.1, h.1.2, h.2]
  · rw [if_neg h]
    have hc : ¬((check_env_vars env).core_PHENOML_USERNAME = true ∧
        (check_env_vars env).core_PHENOML_PASSWORD = true ∧
        (check_env_vars env).core_PHENOML_BASE_URL = true) := by
      intro hcc
      exact h (by simp [hcc.1, hcc.2.1, hcc.2.2])
    exact ⟨⟨fun h1 => absurd h1 (by decide), fun hcc => absurd hcc hc⟩,
           ⟨fun _ => hc, fun _ => rfl⟩⟩

/-- C9: with neither a CLI value nor an environment string, dynamic
generation defaults to true and verbose to false; a supplied string is
interpreted as true exactly when its lowercased form is one of true, 1,
yes, y, and every other string — such as "on" — is interpreted as false. -/
theorem implicit_bool_semantics :
    resolve_dynamic_generation none none = true ∧
    resolve_verbose none none = false ∧
    (∀ s : String, str_to_bool s = true ↔
      (s.data.map Char.toLower = "true".data ∨ s.data.map Char.toLower = "1".data ∨
       s.data.map Char.toLower = "yes".data ∨ s.data.map Char.toLower = "y".data)) ∧
    str_to_bool "on" = false := by
  refine ⟨by decide, by decide, ?_, by decide⟩
  intro s
  have hdata : ∀ t : String, lowerStr s = t ↔ s.data.map Char.toLower = t.data := by
    intro t
    constructor
    · intro h; rw [← h]; rfl
    · intro h; cases t; exact congrArg String.mk h
  have hmem : str_to_bool s = true ↔ lowerStr s ∈ ["true", "1", "yes", "y"] := by
    rw [str_to_bool]
    constructor
    · intro h; simpa using h
    · intro h; simpa using h
  rw [hmem]
  simp only [List.mem_cons, List.not_mem_nil, or_false]
  rw [hdata "true", hdata "1", hdata "yes", hdata "y"]

/-- C10: input data that parses to a Python-falsy JSON value, supplied
through any of the three sources, is treated exactly like absent input:
the script reports that input data is required and exits with code 1,
never reaching the remote call. -/
theorem test_workflow_falsy_input (w : String) (j : JValue)
    (hw : ¬w.isEmpty = true) (hj : jsonFalsy j = true) :
    run_test (some w) (some j) = .exited 1 "Input data is required" ∧
    run_test (some w) (some j) = run_test (some w) none ∧
    select_input (some j) none none = some j ∧
    select_input none (some j) none = some j ∧
    select_input none none (some j) = some j := by
  refine ⟨?_, ?_, rfl, rfl, rfl⟩
  · rw [run_test]
    simp [hw, hj]
  · rw [run_test, run_test]
    simp [hw, hj]

/-- C10 witness: an empty JSON object from the CLI source is rejected as
missing input with exit code 1. -/
theorem test_workflow_falsy_input_witness :
    run_test (some "wf-1") (some (JValue.obj [])) = .exited 1 "Input data is required" ∧
    run_test (some "wf-1") (some (JValue.obj [])) = run_test (some "wf-1") none ∧
    select_input none (some (JValue.obj [])) none = some (JValue.obj []) :=
  ⟨(test_workflow_falsy_input "wf-1" (JValue.obj []) (by decide) rfl).1,
   (test_workflow_falsy_input "wf-1" (JValue.obj []) (by decide) rfl).2.1,
   (test_workflow_falsy_input "wf-1" (JValue.obj []) (by decide) rfl).2.2.2.1⟩
